import Mathlib

/-!
Verification of the mcpkit core: the action-discovery response repair
pipeline, the discovery schema validation, the page-state inspector's
heuristic fallback, the authentication orchestrator's control flow, and
the 1Password credential lookup.

Strings from the TypeScript source are modelled as `List Char`.  Each
definition is a shallow embedding of the corresponding function in the
repository source; external effects (browser driver, language model,
vault backend, console input) are passed in explicitly as oracle values.
-/

namespace Mcpkit

/-- The `'\x7b'` character, written once so string literals need not contain it. -/
def lbrace : Char := '\x7b'

/-- The `'\x7d'` character. -/
def rbrace : Char := '\x7d'

/-- JavaScript whitespace as relevant to `trim` / `\s` on the ASCII range. -/
def isJsWS (c : Char) : Bool :=
  c = ' ' || c = '\t' || c = '\n' || c = '\r' || c = '\x0b' || c = '\x0c'

/-- ASCII lowercasing, mirroring `String.prototype.toLowerCase` on the
characters the source manipulates. -/
def lowerChar (c : Char) : Char :=
  if 'A' ≤ c ∧ c ≤ 'Z' then Char.ofNat (c.toNat + 32) else c

/-- `value.toLowerCase()`. -/
def toLowerL (s : List Char) : List Char := s.map lowerChar

/-- `value.trim()`: drop leading and trailing whitespace. -/
def trimL (s : List Char) : List Char :=
  ((s.dropWhile isJsWS).reverse.dropWhile isJsWS).reverse

/-- Boolean prefix test on character lists. -/
def isPrefixB : List Char → List Char → Bool
  | [], _ => true
  | _ :: _, [] => false
  | a :: as, b :: bs => a = b && isPrefixB as bs

/-- Boolean suffix test on character lists. -/
def isSuffixB (n h : List Char) : Bool := isPrefixB n.reverse h.reverse

/-- `haystack.includes(needle)`: substring containment. -/
def containsSub (n : List Char) : List Char → Bool
  | [] => isPrefixB n []
  | h :: t => isPrefixB n (h :: t) || containsSub n t

/-! ## Action Discovery Engine: response repair
(src/services/create/discovery/index.ts, `discoverActions` lines 244-272) -/

/-- `replace` with the anchored case-insensitive json code-fence opener
regex: strip a leading fence-plus-`json` tag and following whitespace. -/
def stripFence1 (s : List Char) : List Char :=
  if isPrefixB "```".toList s ∧ toLowerL ((s.drop 3).take 4) = "json".toList
  then (s.drop 7).dropWhile isJsWS
  else s

/-- `replace` with the anchored bare code-fence opener regex. -/
def stripFence2 (s : List Char) : List Char :=
  if isPrefixB "```".toList s then (s.drop 3).dropWhile isJsWS else s

/-- `replace` with the trailing code-fence closer regex: strip a final
fence and the whitespace just before it. -/
def stripFence3 (s : List Char) : List Char :=
  if isSuffixB "```".toList s then
    ((s.reverse.drop 3).dropWhile isJsWS).reverse
  else s

/-- The three code-fence stripping `replace` calls of `discoverActions`,
in program order. -/
def stripFences (s : List Char) : List Char :=
  stripFence3 (stripFence2 (stripFence1 s))

/-- The greedy regex match `jsonString.match` of an open brace, then
anything, then a close brace: from the first open brace to the last close
brace strictly after it; `none` when the regex does not match. -/
def extractBraced (s : List Char) : Option (List Char) :=
  match s.dropWhile (fun c => !(c = lbrace)) with
  | [] => none
  | c :: rest =>
    let r := (rest.reverse.dropWhile (fun x => !(x = rbrace))).reverse
    if r = [] then none else some (c :: r)

/-- The error text built when no JSON object can be found in the response:
`Agent returned non-JSON response. Response started with: "<first 100 chars>..."`. -/
def nonJsonMsg (s : List Char) : List Char :=
  "Agent returned non-JSON response. Response started with: \"".toList
    ++ s.take 100 ++ "...\"".toList

/-- The wrapping applied by the `catch` block of `discoverActions`:
`Failed to discover actions: <cause>`. -/
def failedMsg (m : List Char) : List Char :=
  "Failed to discover actions: ".toList ++ m

/-- `jsonString.startsWith` of the open brace. -/
def startsWithLBrace : List Char → Bool
  | c :: _ => c = lbrace
  | [] => false

/-- The repair step of `discoverActions`: trim, strip markdown fences,
re-trim, and if the text does not start with an open brace extract the
greedy brace-delimited substring; error with a 100-character diagnostic
prefix when none exists. -/
def repairToJsonText (resp : List Char) : Except (List Char) (List Char) :=
  let j0 := trimL resp
  let j1 := trimL (stripFences j0)
  if startsWithLBrace j1 then .ok j1
  else
    match extractBraced j1 with
    | some m => .ok m
    | none => .error (nonJsonMsg j1)

/-! ## JSON values and the discovery response schema
(src/services/create/index.ts, `DiscoveredActionSchema` /
`DiscoveredActionsResponseSchema`, lines 15-34) -/

/-- The values `JSON.parse` can produce. -/
inductive Json where
  | str (s : List Char)
  | num (n : Int)
  | bool (b : Bool)
  | null
  | arr (xs : List Json)
  | obj (fs : List (List Char × Json))

/-- Field access on a parsed object: first binding for the key, `none`
when the key is absent (JavaScript `undefined`). -/
def jLookup (fs : List (List Char × Json)) (k : List Char) : Option Json :=
  (fs.find? (fun f => f.1 = k)).map (·.2)

/-- `z.enum(["string", "number", "boolean"])` for a parameter's `type`. -/
inductive ParamType where
  | string | number | boolean
  deriving DecidableEq

/-- A validated element of `parameters`. -/
structure ActionParam where
  name : List Char
  type : ParamType
  description : List Char
  required : Option Bool
  deriving DecidableEq

/-- A validated catalog entry (`DiscoveredActionSchema`). -/
structure DiscoveredAction where
  name : List Char
  description : List Char
  steps : List (List Char)
  parameters : Option (List ActionParam)
  extractionSchema : Option (List (List Char × List Char))
  deriving DecidableEq

/-- Option-valued traversal used to model zod validating every element of
an array (one failure fails the whole array). -/
def mapOpt (f : α → Option β) : List α → Option (List β)
  | [] => some []
  | x :: xs =>
    match f x with
    | none => none
    | some y => (mapOpt f xs).map (y :: ·)

/-- `z.string()` against a field value; missing or non-string fails. -/
def asStr : Option Json → Option (List Char)
  | some (.str s) => some s
  | _ => none

/-- The `z.enum(["string", "number", "boolean"])` check. -/
def asParamType : Json → Option ParamType
  | .str s =>
    if s = "string".toList then some .string
    else if s = "number".toList then some .number
    else if s = "boolean".toList then some .boolean
    else none
  | _ => none

/-- `z.boolean().optional()`: absent is fine, present must be a boolean. -/
def asOptBool : Option Json → Option (Option Bool)
  | none => some none
  | some (.bool b) => some (some b)
  | some _ => none

/-- Validation of one `parameters` element. -/
def parseActionParam : Json → Option ActionParam
  | .obj fs => do
    let n ← asStr (jLookup fs "name".toList)
    let t ← (jLookup fs "type".toList).bind asParamType
    let d ← asStr (jLookup fs "description".toList)
    let r ← asOptBool (jLookup fs "required".toList)
    some ⟨n, t, d, r⟩
  | _ => none

/-- `z.array(...).optional()` for `parameters`. -/
def parseParameters : Option Json → Option (Option (List ActionParam))
  | none => some none
  | some (.arr ps) => (mapOpt parseActionParam ps).map some
  | some _ => none

/-- `z.record(z.string()).optional()` for `extractionSchema`. -/
def parseExtractionSchema : Option Json → Option (Option (List (List Char × List Char)))
  | none => some none
  | some (.obj fs) =>
    (mapOpt (fun f => (asStr (some f.2)).map (fun v => (f.1, v))) fs).map some
  | some _ => none

/-- `z.array(z.string())` for `steps`. -/
def parseSteps : Option Json → Option (List (List Char))
  | some (.arr ss) => mapOpt (fun s => asStr (some s)) ss
  | _ => none

/-- Validation of one action against `DiscoveredActionSchema`. -/
def parseDiscoveredAction : Json → Option DiscoveredAction
  | .obj fs => do
    let n ← asStr (jLookup fs "name".toList)
    let d ← asStr (jLookup fs "description".toList)
    let st ← parseSteps (jLookup fs "steps".toList)
    let ps ← parseParameters (jLookup fs "parameters".toList)
    let ex ← parseExtractionSchema (jLookup fs "extractionSchema".toList)
    some ⟨n, d, st, ps, ex⟩
  | _ => none

/-- Validation of a whole parsed response against
`DiscoveredActionsResponseSchema`: an object with an `actions` array all
of whose entries validate; anything else fails. -/
def parseDiscoveredActionsResponse : Json → Option (List DiscoveredAction)
  | .obj fs =>
    match jLookup fs "actions".toList with
    | some (.arr items) => mapOpt parseDiscoveredAction items
    | _ => none
  | _ => none

/-- Stand-in text for a JSON.parse failure propagated by `discoverActions`. -/
def jsonParseErr : List Char := "JSON parse error".toList

/-- Stand-in text for a zod schema failure propagated by `discoverActions`. -/
def schemaErr : List Char := "schema validation error".toList

/-- `discoverActions` after the agent has produced the response text
`resp`: repair, parse (`jsonParse` abstracts the JavaScript JSON parser),
validate, and wrap every failure in the `Failed to discover actions:`
error of the surrounding `catch`. -/
def discoverActionsPipeline (jsonParse : List Char → Option Json)
    (resp : List Char) : Except (List Char) (List DiscoveredAction) :=
  match repairToJsonText resp with
  | .error m => .error (failedMsg m)
  | .ok s =>
    match jsonParse s with
    | none => .error (failedMsg jsonParseErr)
    | some v =>
      match parseDiscoveredActionsResponse v with
      | none => .error (failedMsg schemaErr)
      | some acts => .ok acts

/-! ## Page State Inspector
(src/services/create/authentication/analysis.ts, `analyzeAuthenticationState`) -/

/-- `{ required: boolean, description: optional string }`. -/
structure MfaInfo where
  required : Bool
  description : Option (List Char)
  deriving DecidableEq

/-- `recommendedStrategy` enum. -/
inductive RecommendedStrategy where
  | autofill | manual | passwordless | unknown
  deriving DecidableEq

/-- The `AuthAnalysisSchema` record. -/
structure AuthAnalysis where
  requiresAuth : Bool
  loginButton : Option (List Char) := none
  summary : Option (List Char) := none
  canAutofill : Option Bool := none
  recommendedStrategy : Option RecommendedStrategy := none
  steps : Option (List (List Char)) := none
  blockers : Option (List (List Char)) := none
  mfa : Option MfaInfo := none
  deriving DecidableEq

/-- The URL heuristic of the `catch` branch: case-insensitive regex test
for `login|signin|auth|sign-in|account`. -/
def authUrlHeuristic (url : List Char) : Bool :=
  containsSub "login".toList (toLowerL url)
    || containsSub "signin".toList (toLowerL url)
    || containsSub "auth".toList (toLowerL url)
    || containsSub "sign-in".toList (toLowerL url)
    || containsSub "account".toList (toLowerL url)

/-- Summary prefix used when the extraction error carried a message
(`error instanceof Error`). -/
def heuristicSummaryPrefix : List Char :=
  "Heuristic result after extract error: ".toList

/-- Summary used when the extraction error carried no message. -/
def heuristicSummaryNoMsg : List Char :=
  "Heuristic result after extract error.".toList

/-- `analyzeAuthenticationState`: the structured-extraction call is the
oracle `extractResult` (`.error (some m)` is a thrown `Error` with message
`m`, `.error none` any other thrown value); `url` is `page.url()`. -/
def analyzeAuthenticationState
    (extractResult : Except (Option (List Char)) AuthAnalysis)
    (url : List Char) : AuthAnalysis :=
  match extractResult with
  | .ok r => r
  | .error e =>
    { requiresAuth := authUrlHeuristic url
      summary := some (match e with
        | some m => heuristicSummaryPrefix ++ m
        | none => heuristicSummaryNoMsg) }

/-! ## Authentication Orchestrator
(src/services/create/index.ts, `authenticateToWebsite`, lines 81-197) -/

/-- `{ username: string, password: string }`. -/
structure Credentials where
  username : List Char
  password : List Char
  deriving DecidableEq

/-- Which call site of the Inspector produced an analysis. -/
inductive InspectSite where
  | initial | afterClick | afterAutofill | final
  deriving DecidableEq

/-- Externally visible steps of one `authenticateToWebsite` run. -/
inductive AuthEvent where
  | inspected (site : InspectSite) (a : AuthAnalysis)
  | clickedLogin (ok : Bool)
  | autofillAttempt (ok : Bool)
  | openedDebugger
  | waitedForInput
  | navigatedBackToOriginal
  deriving DecidableEq

/-- Outcome of a run: normal return or a thrown error message. -/
structure AuthRun where
  outcome : Except (List Char) Unit
  events : List AuthEvent

/-- Oracle outcomes of the external calls `authenticateToWebsite` makes,
in program order.  Each Inspector call is total (it never throws, see
`analyzeAuthenticationState`), so its result is an `AuthAnalysis`. -/
structure AuthEnv where
  pageAvailable : Bool
  gotoInitialOk : Bool
  analysis1 : AuthAnalysis
  credentials : Option Credentials
  clickActOk : Bool
  analysisAfterClick : AuthAnalysis
  autofillActsOk : Bool
  analysisAfterAutofill : AuthAnalysis
  hasSession : Bool
  openDebuggerOk : Bool
  userInput : List Char
  gotoBackOk : Bool
  finalAnalysis : AuthAnalysis

/-- Error raised when no active page is obtained within the bounded wait. -/
def noActivePageMsg : List Char :=
  "Unable to locate an active browser page for authentication.".toList

/-- Stand-in for a rejected initial `page.goto`. -/
def gotoFailMsg : List Char := "goto failed".toList

/-- `getDebugUrl` throws this when there is no Browserbase session id. -/
def noSessionMsg : List Char := "No active Browserbase session".toList

/-- Stand-in for a rejected `openDebuggerUrl`. -/
def openDebuggerFailMsg : List Char := "open debugger failed".toList

/-- Error raised when the final re-verification still requires auth. -/
def authStillRequiredMsg : List Char :=
  ("Authentication still required after manual verification. "
    ++ "Please sign in and re-run the command.").toList

/-- `userInput.toLowerCase().trim() === "skip"`. -/
def isSkipInput (s : List Char) : Bool :=
  trimL (toLowerL s) = "skip".toList

/-- The login-button branch: if the first analysis names a login button,
`stagehand.act` it; on success re-run the Inspector, on a thrown act log
and keep the pre-click analysis (the `catch` swallows the error).
Returns the analysis now in effect and the events so far. -/
def clickPhase (env : AuthEnv) (evs : List AuthEvent) :
    AuthAnalysis × List AuthEvent :=
  match env.analysis1.loginButton with
  | none => (env.analysis1, evs)
  | some _ =>
    if env.clickActOk then
      (env.analysisAfterClick,
        evs ++ [.clickedLogin true, .inspected .afterClick env.analysisAfterClick])
    else (env.analysis1, evs ++ [.clickedLogin false])

/-- The autofill branch: attempted only when credentials were found and
the analysis in effect says `canAutofill`; three act commands, then
re-inspect; success with `requiresAuth` false returns, everything else
falls through to manual login.  `.inl` is an early return, `.inr` the
events to carry into the manual phase. -/
def autofillPhase (env : AuthEnv) (a : AuthAnalysis) (evs : List AuthEvent) :
    Sum AuthRun (List AuthEvent) :=
  if env.credentials.isSome = true ∧ a.canAutofill = some true then
    if env.autofillActsOk = true then
      if env.analysisAfterAutofill.requiresAuth = true then
        .inr (evs ++ [.autofillAttempt true,
          .inspected .afterAutofill env.analysisAfterAutofill])
      else
        .inl ⟨.ok (), evs ++ [.autofillAttempt true,
          .inspected .afterAutofill env.analysisAfterAutofill]⟩
    else .inr (evs ++ [.autofillAttempt false])
  else .inr evs

/-- The manual-login phase: surface the debug URL (fails without a
session id), open the debugger, block on one line of input; `skip`
(case-insensitive, trimmed) navigates back and returns cleanly, anything
else re-runs the Inspector once and succeeds or throws on its verdict. -/
def manualPhase (env : AuthEnv) (evs : List AuthEvent) : AuthRun :=
  if env.hasSession = false then ⟨.error noSessionMsg, evs⟩
  else if env.openDebuggerOk = false then ⟨.error openDebuggerFailMsg, evs⟩
  else if isSkipInput env.userInput = true then
    if env.gotoBackOk = true then
      ⟨.ok (), evs ++ [.openedDebugger, .waitedForInput,
        .navigatedBackToOriginal]⟩
    else ⟨.error gotoFailMsg, evs ++ [.openedDebugger, .waitedForInput]⟩
  else if env.finalAnalysis.requiresAuth = true then
    ⟨.error authStillRequiredMsg,
      evs ++ [.openedDebugger, .waitedForInput,
        .inspected .final env.finalAnalysis]⟩
  else
    ⟨.ok (),
      evs ++ [.openedDebugger, .waitedForInput,
        .inspected .final env.finalAnalysis]⟩

/-- `authenticateToWebsite`: acquire the page, navigate, inspect; stop if
no auth is required; otherwise click the login affordance, try autofill,
and fall back to manual login with final re-verification. -/
def authenticateToWebsite (env : AuthEnv) : AuthRun :=
  if env.pageAvailable = false then ⟨.error noActivePageMsg, []⟩
  else if env.gotoInitialOk = false then ⟨.error gotoFailMsg, []⟩
  else if env.analysis1.requiresAuth = false then
    ⟨.ok (), [AuthEvent.inspected .initial env.analysis1]⟩
  else
    match autofillPhase env
        (clickPhase env [AuthEvent.inspected .initial env.analysis1]).1
        (clickPhase env [AuthEvent.inspected .initial env.analysis1]).2 with
    | .inl run => run
    | .inr evs => manualPhase env evs

/-- The analysis reported by the most recent Inspector invocation of a
run, when any happened. -/
def lastInspected (evs : List AuthEvent) : Option AuthAnalysis :=
  evs.reverse.findSome? (fun e =>
    match e with
    | .inspected _ a => some a
    | _ => none)

/-! ## 1Password credential lookup
(src/services/1password/index.ts, `lookupCredentialsIn1Password`) -/

/-- `value.toLowerCase().replace(/[^a-z0-9]/g, "")`. -/
def normalize (v : List Char) : List Char :=
  (toLowerL v).filter (fun c =>
    ('a' ≤ c && c ≤ 'z') || ('0' ≤ c && c ≤ '9'))

/-- Strip a case-insensitive `http://` or `https://` prefix
(`value.replace` with the anchored scheme regex). -/
def stripScheme (v : List Char) : List Char :=
  if toLowerL (v.take 8) = "https://".toList then v.drop 8
  else if toLowerL (v.take 7) = "http://".toList then v.drop 7
  else v

/-- `extractHostname`: empty stays empty; otherwise drop the scheme, cut
at the first `/`, `?` or `#`, and lowercase. -/
def extractHostname (v : List Char) : List Char :=
  if v = [] then []
  else toLowerL ((stripScheme v).takeWhile (fun c =>
    !(c = '/' || c = '?' || c = '#')))

/-- `value.replace(/\./g, "_")`. -/
def dotsToUnderscores (v : List Char) : List Char :=
  v.map (fun c => if c = '.' then '_' else c)

/-- `host.replace(/^www\./, "")`. -/
def stripWWW (v : List Char) : List Char :=
  if v.take 4 = "www.".toList then v.drop 4 else v

/-- Split on `.` exactly as `String.prototype.split(".")` does. -/
def splitDots : List Char → List (List Char)
  | [] => [[]]
  | c :: rest =>
    let r := splitDots rest
    if c = '.' then [] :: r
    else
      match r with
      | [] => [[c]]
      | s :: ss => (c :: s) :: ss

/-- `labels.join(".")`. -/
def joinDots (ls : List (List Char)) : List Char :=
  List.intercalate ['.'] ls

/-- `addCandidate`: skip falsy (empty) values, otherwise add the value
and its dots-to-underscores variant.  The source accumulates into a
`Set`; duplicates are harmless for the existential match below, so a
list model keeps them. -/
def addCandidate (v : List Char) (acc : List (List Char)) : List (List Char) :=
  if v = [] then acc else acc ++ [v, dotsToUnderscores v]

/-- The set of domain candidates `lookupCredentialsIn1Password` builds
for one looked-up domain. -/
def domainCandidates (domain : List Char) : List (List Char) :=
  let c1 := addCandidate domain []
  let host := extractHostname domain
  let c2 := addCandidate host c1
  let hostWithoutWWW := stripWWW host
  let c3 := addCandidate hostWithoutWWW c2
  let labels := (splitDots hostWithoutWWW).filter (· ≠ [])
  let c4 := if labels.length > 0 then addCandidate (labels.headD []) c3 else c3
  if labels.length > 1 then
    let c5 := addCandidate (joinDots (labels.drop (labels.length - 2))) c4
    let c6 := addCandidate (labels.getD (labels.length - 2) []) c5
    addCandidate (joinDots (labels.take (labels.length - 1))) c6
  else c4

/-- The normalized, non-empty domain signatures. -/
def domainSignatures (domain : List Char) : List (List Char) :=
  ((domainCandidates domain).map normalize).filter (· ≠ [])

/-- The normalized signatures of an item: its title signature and the
non-empty signatures of its website URLs (hostname, falling back to the
raw URL when the hostname comes out empty). -/
def itemSearchable (title : List Char) (websiteUrls : List (List Char)) :
    List (List Char) :=
  normalize title ::
    ((websiteUrls.map (fun url =>
        let h := extractHostname url
        normalize (if h = [] then url else h))).filter (· ≠ []))

/-- The fuzzy domain match: some item signature and some domain signature
where one `includes` the other. -/
def matchesDomain (domain title : List Char) (websiteUrls : List (List Char)) :
    Bool :=
  (itemSearchable title websiteUrls).any (fun cand =>
    (domainSignatures domain).any (fun signature =>
      containsSub signature cand || containsSub cand signature))

/-- One field of a fetched vault item. -/
structure OPField where
  id : List Char
  title : Option (List Char)
  value : Option (List Char)
  deriving DecidableEq

/-- 1Password item category as far as the lookup cares. -/
inductive OPCategory where
  | login | other
  deriving DecidableEq

/-- A listed vault item. -/
structure OPItem where
  id : List Char
  title : List Char
  websites : Option (List (List Char))
  category : OPCategory
  deriving DecidableEq

/-- A fully fetched vault item. -/
structure OPFullItem where
  id : List Char
  title : List Char
  fields : Option (List OPField)
  deriving DecidableEq

/-- Oracle outcomes of the vault backend calls: client connection, vault
listing, item listing, per-item fetch, and secret resolution
(`resolveAllOk` is whether `client.secrets.resolveAll` itself throws;
`resolveSecret` is `individualResponses[ref]?.content?.secret`). -/
structure OPBackend where
  clientOk : Bool
  vaultsList : Except Unit (List (List Char))
  itemsList : Except Unit (List OPItem)
  itemGet : List Char → Except Unit OPFullItem
  resolveAllOk : Bool
  resolveSecret : List Char → Option (List Char)

/-- JavaScript truthiness of an optional string value. -/
def truthy : Option (List Char) → Bool
  | some v => v ≠ []
  | none => false

/-- The secret reference built for a credential field that has no direct
value: `op://<vault>/<item>/<field>`. -/
def opRef (vaultId itemId fieldId : List Char) : List Char :=
  "op://".toList ++ vaultId ++ ['/'] ++ itemId ++ ['/'] ++ fieldId

/-- `field.id === "username" || field.title?.toLowerCase() === "username"`. -/
def fieldIsUsername (f : OPField) : Bool :=
  f.id = "username".toList
    || (match f.title with
        | some t => toLowerL t = "username".toList
        | none => false)

/-- `field.id === "password" || field.title?.toLowerCase() === "password"`. -/
def fieldIsPassword (f : OPField) : Bool :=
  f.id = "password".toList
    || (match f.title with
        | some t => toLowerL t = "password".toList
        | none => false)

/-- Running state of the field scan: direct credential values and pending
secret references for username and password. -/
structure CredScan where
  credU : Option (List Char) := none
  credP : Option (List Char) := none
  refU : Option (List Char) := none
  refP : Option (List Char) := none

/-- One step of the field loop of `lookupCredentialsIn1Password`:
a username-shaped field sets the username value when truthy, otherwise a
secret reference; independently likewise for password. -/
def scanField (vaultId itemId : List Char) (st : CredScan) (f : OPField) :
    CredScan :=
  let st1 :=
    if fieldIsUsername f then
      if truthy f.value then { st with credU := f.value }
      else { st with refU := some (opRef vaultId itemId f.id) }
    else st
  if fieldIsPassword f then
    if truthy f.value then { st1 with credP := f.value }
    else { st1 with refP := some (opRef vaultId itemId f.id) }
  else st1

/-- `if (credentials.username && credentials.password) return them`:
only a pair of truthy values yields a `Credentials` record. -/
def finishCreds : Option (List Char) → Option (List Char) → Option Credentials
  | some u, some p => if u ≠ [] ∧ p ≠ [] then some ⟨u, p⟩ else none
  | _, _ => none

/-- The secret-reference resolution stage: when a credential is missing
and has a pending reference, call `resolveAll` (which may throw) and,
for each unresolved key, take the resolved secret when truthy. -/
def resolveCreds (env : OPBackend) (st : CredScan) :
    Except Unit (Option (List Char) × Option (List Char)) :=
  let unresolvedU := !truthy st.credU && st.refU.isSome
  let unresolvedP := !truthy st.credP && st.refP.isSome
  if unresolvedU || unresolvedP then
    if !env.resolveAllOk then .error ()
    else
      let newU :=
        if unresolvedU then
          match st.refU.bind env.resolveSecret with
          | some s => if s ≠ [] then some s else st.credU
          | none => st.credU
        else st.credU
      let newP :=
        if unresolvedP then
          match st.refP.bind env.resolveSecret with
          | some s => if s ≠ [] then some s else st.credP
          | none => st.credP
        else st.credP
      .ok (newU, newP)
  else .ok (st.credU, st.credP)

/-- Process one matched Login item: scan its fields, resolve missing
credentials through secret references, and return credentials only when
both values ended up truthy; `.ok none` means this item is skipped. -/
def processItem (env : OPBackend) (vaultId : List Char) (fi : OPFullItem) :
    Except Unit (Option Credentials) :=
  match resolveCreds env
      ((fi.fields.getD []).foldl (scanField vaultId fi.id) {}) with
  | .error e => .error e
  | .ok (u, p) => .ok (finishCreds u p)

/-- The item loop: for each listed item that fuzzy-matches the domain and
is a Login item, fetch it and try to extract credentials; a partial item
is skipped and the loop continues. -/
def findCreds (env : OPBackend) (vaultId domain : List Char) :
    List OPItem → Except Unit (Option Credentials)
  | [] => .ok none
  | item :: rest =>
    if matchesDomain domain item.title (item.websites.getD [])
        ∧ item.category = .login then
      match env.itemGet item.id with
      | .error e => .error e
      | .ok fi =>
        match processItem env vaultId fi with
        | .error e => .error e
        | .ok (some c) => .ok (some c)
        | .ok none => findCreds env vaultId domain rest
    else findCreds env vaultId domain rest

/-- The body of the `try` block of `lookupCredentialsIn1Password`:
connect, pick the first vault (throwing when there is none), list items,
and run the item loop. -/
def lookupCore (env : OPBackend) (domain : List Char) :
    Except Unit (Option Credentials) :=
  if ¬env.clientOk then .error ()
  else
    match env.vaultsList with
    | .error e => .error e
    | .ok [] => .error ()
    | .ok (vaultId :: _) =>
      match env.itemsList with
      | .error e => .error e
      | .ok items => findCreds env vaultId domain items

/-- `lookupCredentialsIn1Password`: any error thrown inside the body is
caught and mapped to the not-found result `none`. -/
def lookupCredentialsIn1Password (env : OPBackend) (domain : List Char) :
    Option Credentials :=
  match lookupCore env domain with
  | .error _ => none
  | .ok r => r

/-! ## Theorems -/

/-- C7 counterexample: the claim says a lookup for `app.linear.app`
fails to match the vault entry titled `Linear` with website
`https://linear.app/login`; in the code it matches (the normalized
title signature `linear` is contained in the domain signature `linear`
derived from the second-to-last label). -/
theorem linear_app_subdomain_matches :
    matchesDomain "app.linear.app".toList "Linear".toList
      ["https://linear.app/login".toList] = true := by decide

/-- C7 amended: for the vault entry titled `Linear` with website
`https://linear.app/login`, lookups for `linear.app`, `www.linear.app`
and also `app.linear.app` all match under the fuzzy rule. -/
theorem linear_fuzzy_matching_amended :
    matchesDomain "linear.app".toList "Linear".toList
      ["https://linear.app/login".toList] = true
    ∧ matchesDomain "www.linear.app".toList "Linear".toList
      ["https://linear.app/login".toList] = true
    ∧ matchesDomain "app.linear.app".toList "Linear".toList
      ["https://linear.app/login".toList] = true := by
  refine ⟨by decide, by decide, by decide⟩

/-- C2: when the structured-extraction call throws, the Inspector
returns (never raises); `requiresAuth` is exactly the case-insensitive
substring test for `login`, `signin`, `auth`, `sign-in`, `account`
against the page URL, and the returned summary is non-empty. -/
theorem inspector_heuristic_fallback (url : List Char) (e : Option (List Char)) :
    (analyzeAuthenticationState (.error e) url).requiresAuth
      = (containsSub "login".toList (toLowerL url)
          || containsSub "signin".toList (toLowerL url)
          || containsSub "auth".toList (toLowerL url)
          || containsSub "sign-in".toList (toLowerL url)
          || containsSub "account".toList (toLowerL url))
    ∧ ∃ s, (analyzeAuthenticationState (.error e) url).summary = some s
        ∧ s ≠ [] := by
  constructor
  · rfl
  · cases e with
    | none => exact ⟨heuristicSummaryNoMsg, rfl, by decide⟩
    | some m =>
      exact ⟨heuristicSummaryPrefix ++ m, rfl,
        List.append_ne_nil_of_left_ne_nil (by decide) m⟩

/-- Every credentials value produced by `finishCreds` has both fields
non-empty (the truthiness check of the source). -/
lemma finishCreds_some {u p : Option (List Char)} {c : Credentials}
    (h : finishCreds u p = some c) :
    c.username ≠ [] ∧ c.password ≠ [] := by
  unfold finishCreds at h
  split at h
  · split at h
    · rename_i hup
      injection h with h'
      subst h'
      exact hup
    · exact absurd h (by simp)
  · exact absurd h (by simp)

/-- `processItem` returns credentials only with both fields non-empty. -/
lemma processItem_ok_some {env : OPBackend} {vaultId : List Char}
    {fi : OPFullItem} {c : Credentials}
    (h : processItem env vaultId fi = .ok (some c)) :
    c.username ≠ [] ∧ c.password ≠ [] := by
  unfold processItem at h
  split at h
  · exact absurd h (by simp)
  · rename_i u p heq
    injection h with h'
    exact finishCreds_some h'

/-- The item loop only ever returns credentials with both fields
non-empty. -/
lemma findCreds_ok_some {env : OPBackend} {vaultId domain : List Char}
    {items : List OPItem} {c : Credentials}
    (h : findCreds env vaultId domain items = .ok (some c)) :
    c.username ≠ [] ∧ c.password ≠ [] := by
  induction items with
  | nil => simp [findCreds] at h
  | cons item rest ih =>
    unfold findCreds at h
    split at h
    · split at h
      · cases h
      · split at h
        · cases h
        · rename_i hproc
          cases h
          exact processItem_ok_some hproc
        · exact ih h
    · exact ih h

/-- C8: every backend failure mode — client connection failure, vault
listing failure, empty vault list, item listing failure, and any other
error thrown inside the body — is caught internally and mapped to the
not-found result; `lookupCredentialsIn1Password` never propagates. -/
theorem lookup_catches_backend_errors (env : OPBackend) (domain : List Char) :
    (env.clientOk = false → lookupCredentialsIn1Password env domain = none)
    ∧ (env.vaultsList = .error () → lookupCredentialsIn1Password env domain = none)
    ∧ (env.vaultsList = .ok [] → lookupCredentialsIn1Password env domain = none)
    ∧ (env.itemsList = .error () → lookupCredentialsIn1Password env domain = none)
    ∧ (∀ e, lookupCore env domain = .error e →
        lookupCredentialsIn1Password env domain = none) := by
  have key : ∀ e, lookupCore env domain = .error e →
      lookupCredentialsIn1Password env domain = none := by
    intro e h
    unfold lookupCredentialsIn1Password
    rw [h]
  refine ⟨?_, ?_, ?_, ?_, key⟩
  · intro h
    exact key () (by simp [lookupCore, h])
  · intro h
    by_cases hc : env.clientOk
    · exact key () (by simp [lookupCore, hc, h])
    · exact key () (by simp [lookupCore, hc])
  · intro h
    by_cases hc : env.clientOk
    · exact key () (by simp [lookupCore, hc, h])
    · exact key () (by simp [lookupCore, hc])
  · intro h
    by_cases hc : env.clientOk
    · cases hv : env.vaultsList with
      | error e => exact key e (by simp [lookupCore, hc, hv])
      | ok vs =>
        cases vs with
        | nil => exact key () (by simp [lookupCore, hc, hv])
        | cons v vt => exact key () (by simp [lookupCore, hc, hv, h])
    · exact key () (by simp [lookupCore, hc])

/-- C10: the lookup returns credentials only when both a username and a
password were obtained: any returned value has both fields non-empty, a
processed item with only partial credentials makes the loop continue
with the remaining items, and `processItem` itself never produces a
partial credentials value. -/
theorem lookup_requires_both_fields (env : OPBackend) (domain : List Char) :
    (∀ c, lookupCredentialsIn1Password env domain = some c →
        c.username ≠ [] ∧ c.password ≠ [])
    ∧ (∀ vaultId fi c, processItem env vaultId fi = .ok (some c) →
        c.username ≠ [] ∧ c.password ≠ [])
    ∧ (∀ vaultId item rest fi,
        (matchesDomain domain item.title (item.websites.getD [])
          ∧ item.category = .login) →
        env.itemGet item.id = .ok fi →
        processItem env vaultId fi = .ok none →
        findCreds env vaultId domain (item :: rest)
          = findCreds env vaultId domain rest) := by
  refine ⟨?_, ?_, ?_⟩
  · intro c h
    unfold lookupCredentialsIn1Password at h
    revert h
    cases hcore : lookupCore env domain with
    | error e => intro h; cases h
    | ok r =>
      intro h
      subst h
      unfold lookupCore at hcore
      split at hcore
      · cases hcore
      · split at hcore
        · cases hcore
        · cases hcore
        · split at hcore
          · cases hcore
          · exact findCreds_ok_some hcore
  · intro vaultId fi c h
    exact processItem_ok_some h
  · intro vaultId item rest fi hmatch hget hproc
    conv_lhs => rw [findCreds, if_pos hmatch, hget]
    simp [hproc]

/-! ### Orchestrator case-analysis lemmas -/

/-- The click phase keeps the analysis or re-inspects, appending at most
a click event and an after-click inspection. -/
lemma clickPhase_cases (env : AuthEnv) (evs : List AuthEvent) :
    (clickPhase env evs = (env.analysis1, evs) ∧ env.analysis1.loginButton = none)
    ∨ (clickPhase env evs
        = (env.analysisAfterClick,
            evs ++ [.clickedLogin true,
              .inspected .afterClick env.analysisAfterClick])
        ∧ env.clickActOk = true)
    ∨ (clickPhase env evs = (env.analysis1, evs ++ [.clickedLogin false])
        ∧ env.clickActOk = false) := by
  unfold clickPhase
  cases hb : env.analysis1.loginButton with
  | none => exact Or.inl ⟨rfl, rfl⟩
  | some b =>
    by_cases hact : env.clickActOk
    · exact Or.inr (Or.inl ⟨by simp [hact], hact⟩)
    · refine Or.inr (Or.inr ⟨by simp [hact], by simpa using hact⟩)

/-- An `.inr` result of the autofill phase carries the incoming events
plus at most an attempt marker and an after-autofill inspection. -/
lemma autofillPhase_inr_cases {env : AuthEnv} {a : AuthAnalysis}
    {evs evs' : List AuthEvent}
    (h : autofillPhase env a evs = .inr evs') :
    evs' = evs
    ∨ evs' = evs ++ [.autofillAttempt true,
        .inspected .afterAutofill env.analysisAfterAutofill]
    ∨ evs' = evs ++ [.autofillAttempt false] := by
  by_cases hc : env.credentials.isSome = true ∧ a.canAutofill = some true
  · by_cases hok : env.autofillActsOk = true
    · by_cases hreq : env.analysisAfterAutofill.requiresAuth = true
      · simp [autofillPhase, hc, hok, hreq] at h
        exact Or.inr (Or.inl h.symm)
      · simp [autofillPhase, hc, hok, hreq] at h
    · simp [autofillPhase, hc, hok] at h
      exact Or.inr (Or.inr h.symm)
  · simp [autofillPhase, hc] at h
    exact Or.inl h.symm

/-- An `.inl` result of the autofill phase is the successful automatic
login: outcome ok, after-autofill inspection last, `requiresAuth` false. -/
lemma autofillPhase_inl_cases {env : AuthEnv} {a : AuthAnalysis}
    {evs : List AuthEvent} {run : AuthRun}
    (h : autofillPhase env a evs = .inl run) :
    run.outcome = .ok ()
    ∧ run.events = evs ++ [.autofillAttempt true,
        .inspected .afterAutofill env.analysisAfterAutofill]
    ∧ env.analysisAfterAutofill.requiresAuth = false := by
  by_cases hc : env.credentials.isSome = true ∧ a.canAutofill = some true
  · by_cases hok : env.autofillActsOk = true
    · by_cases hreq : env.analysisAfterAutofill.requiresAuth = true
      · simp [autofillPhase, hc, hok, hreq] at h
      · simp [autofillPhase, hc, hok, hreq] at h
        subst h
        exact ⟨rfl, rfl, by simpa using hreq⟩
    · simp [autofillPhase, hc, hok] at h
  · simp [autofillPhase, hc] at h

/-- The autofill phase is entered exactly when credentials were found
and the analysis in effect allows autofill. -/
lemma autofillPhase_no_attempt (env : AuthEnv) (a : AuthAnalysis)
    (evs : List AuthEvent)
    (hcond : ¬(env.credentials.isSome = true ∧ a.canAutofill = some true)) :
    autofillPhase env a evs = .inr evs := by
  unfold autofillPhase
  rw [if_neg hcond]

/-- When the autofill condition holds, the phase records an attempt. -/
lemma autofillPhase_attempt {env : AuthEnv} {a : AuthAnalysis}
    {evs : List AuthEvent}
    (hcond : env.credentials.isSome = true ∧ a.canAutofill = some true) :
    (∀ run, autofillPhase env a evs = .inl run →
      ∃ ok, AuthEvent.autofillAttempt ok ∈ run.events)
    ∧ (∀ evs', autofillPhase env a evs = .inr evs' →
      ∃ ok, AuthEvent.autofillAttempt ok ∈ evs') := by
  constructor
  · intro run h
    obtain ⟨-, he, -⟩ := autofillPhase_inl_cases h
    exact ⟨true, by simp [he]⟩
  · intro evs' h
    by_cases hok : env.autofillActsOk = true
    · by_cases hreq : env.analysisAfterAutofill.requiresAuth = true
      · simp [autofillPhase, hcond, hok, hreq] at h
        exact ⟨true, by simp [← h]⟩
      · simp [autofillPhase, hcond, hok, hreq] at h
    · simp [autofillPhase, hcond, hok] at h
      exact ⟨false, by simp [← h]⟩

/-- The four possible event lists of the manual phase. -/
lemma manualPhase_events_cases (env : AuthEnv) (evs : List AuthEvent) :
    (manualPhase env evs).events = evs
    ∨ (manualPhase env evs).events
        = evs ++ [.openedDebugger, .waitedForInput]
    ∨ (manualPhase env evs).events
        = evs ++ [.openedDebugger, .waitedForInput, .navigatedBackToOriginal]
    ∨ (manualPhase env evs).events
        = evs ++ [.openedDebugger, .waitedForInput,
            .inspected .final env.finalAnalysis] := by
  by_cases hs : env.hasSession = false
  · exact Or.inl (by simp [manualPhase, hs])
  · by_cases hd : env.openDebuggerOk = false
    · exact Or.inl (by simp [manualPhase, hs, hd])
    · by_cases hskip : isSkipInput env.userInput = true
      · by_cases hg : env.gotoBackOk = true
        · exact Or.inr (Or.inr (Or.inl (by simp [manualPhase, hs, hd, hskip, hg])))
        · exact Or.inr (Or.inl (by simp [manualPhase, hs, hd, hskip, hg]))
      · by_cases hreq : env.finalAnalysis.requiresAuth = true
        · exact Or.inr (Or.inr (Or.inr (by simp [manualPhase, hs, hd, hskip, hreq])))
        · exact Or.inr (Or.inr (Or.inr (by simp [manualPhase, hs, hd, hskip, hreq])))

/-- Inversion of a successful manual phase. -/
lemma manualPhase_ok {env : AuthEnv} {evs : List AuthEvent}
    (h : (manualPhase env evs).outcome = .ok ()) :
    (isSkipInput env.userInput = true
      ∧ (manualPhase env evs).events
          = evs ++ [.openedDebugger, .waitedForInput, .navigatedBackToOriginal])
    ∨ (isSkipInput env.userInput = false
      ∧ env.finalAnalysis.requiresAuth = false
      ∧ (manualPhase env evs).events
          = evs ++ [.openedDebugger, .waitedForInput,
              .inspected .final env.finalAnalysis]) := by
  by_cases hs : env.hasSession = false
  · simp [manualPhase, hs] at h
  · by_cases hd : env.openDebuggerOk = false
    · simp [manualPhase, hs, hd] at h
    · by_cases hskip : isSkipInput env.userInput = true
      · by_cases hg : env.gotoBackOk = true
        · exact Or.inl ⟨hskip, by simp [manualPhase, hs, hd, hskip, hg]⟩
        · simp [manualPhase, hs, hd, hskip, hg] at h
      · by_cases hreq : env.finalAnalysis.requiresAuth = true
        · simp [manualPhase, hs, hd, hskip, hreq] at h
        · exact Or.inr ⟨by simpa using hskip, by simpa using hreq,
            by simp [manualPhase, hs, hd, hskip, hreq]⟩

/-- The manual phase with a session, a working debugger and a skip input
returns cleanly after navigating back. -/
lemma manualPhase_skip {env : AuthEnv} (evs : List AuthEvent)
    (hs : env.hasSession = true) (hd : env.openDebuggerOk = true)
    (hskip : isSkipInput env.userInput = true) (hg : env.gotoBackOk = true) :
    manualPhase env evs
      = ⟨.ok (), evs ++ [.openedDebugger, .waitedForInput,
          .navigatedBackToOriginal]⟩ := by
  simp [manualPhase, hs, hd, hskip, hg]

/-- The manual phase with a non-skip input re-inspects exactly once and
decides on `requiresAuth`. -/
lemma manualPhase_nonskip {env : AuthEnv} (evs : List AuthEvent)
    (hs : env.hasSession = true) (hd : env.openDebuggerOk = true)
    (hskip : isSkipInput env.userInput = false) :
    manualPhase env evs
      = ⟨if env.finalAnalysis.requiresAuth then .error authStillRequiredMsg
         else .ok (),
         evs ++ [.openedDebugger, .waitedForInput,
           .inspected .final env.finalAnalysis]⟩ := by
  by_cases hreq : env.finalAnalysis.requiresAuth = true
  · simp [manualPhase, hs, hd, hskip, hreq]
  · simp [manualPhase, hs, hd, hskip, hreq]

/-- The most recent inspection of a run ending in an inspection. -/
lemma lastInspected_snoc_inspect (l : List AuthEvent) (s : InspectSite)
    (a : AuthAnalysis) :
    lastInspected (l ++ [.inspected s a]) = some a := by
  simp [lastInspected, List.reverse_append]

/-- The events carried into the manual phase stem only from the initial
inspection, the click phase and the autofill phase. -/
lemma inr_events_pre (env : AuthEnv) {evs' : List AuthEvent}
    (h : autofillPhase env
        (clickPhase env [AuthEvent.inspected .initial env.analysis1]).1
        (clickPhase env [AuthEvent.inspected .initial env.analysis1]).2
        = .inr evs') :
    AuthEvent.waitedForInput ∉ evs'
    ∧ AuthEvent.navigatedBackToOriginal ∉ evs'
    ∧ ∀ a, AuthEvent.inspected .final a ∉ evs' := by
  have h9 := autofillPhase_inr_cases h
  rcases clickPhase_cases env [AuthEvent.inspected .initial env.analysis1]
    with ⟨hc, -⟩ | ⟨hc, -⟩ | ⟨hc, -⟩ <;>
    rw [hc] at h9 <;>
    rcases h9 with h9 | h9 | h9 <;> subst h9 <;>
    exact ⟨by simp, by simp, fun a => by simp⟩

/-- C4: with the manual-login wait reached and a skip token entered
(`"SKIP"`, `"  skip\n"`, `"skip"`, …), the orchestrator navigates back
to the original URL, returns without raising, and never invokes the
Inspector for final re-verification. -/
theorem skip_short_circuit (env : AuthEnv)
    (hw : AuthEvent.waitedForInput ∈ (authenticateToWebsite env).events)
    (hskip : isSkipInput env.userInput = true)
    (hg : env.gotoBackOk = true) :
    (authenticateToWebsite env).outcome = .ok ()
    ∧ AuthEvent.navigatedBackToOriginal ∈ (authenticateToWebsite env).events
    ∧ ∀ a, AuthEvent.inspected .final a ∉ (authenticateToWebsite env).events := by
  by_cases h1 : env.pageAvailable = false
  · simp [authenticateToWebsite, h1] at hw
  by_cases h2 : env.gotoInitialOk = false
  · simp [authenticateToWebsite, h1, h2] at hw
  by_cases h3 : env.analysis1.requiresAuth = false
  · simp [authenticateToWebsite, h1, h2, h3] at hw
  have hrun : authenticateToWebsite env
      = (match autofillPhase env
          (clickPhase env [AuthEvent.inspected .initial env.analysis1]).1
          (clickPhase env [AuthEvent.inspected .initial env.analysis1]).2 with
         | .inl run => run
         | .inr evs => manualPhase env evs) := by
    simp [authenticateToWebsite, h1, h2, h3]
  cases haf : autofillPhase env
      (clickPhase env [AuthEvent.inspected .initial env.analysis1]).1
      (clickPhase env [AuthEvent.inspected .initial env.analysis1]).2 with
  | inl run' =>
    exfalso
    rw [haf] at hrun
    dsimp only [] at hrun
    obtain ⟨-, he, -⟩ := autofillPhase_inl_cases haf
    rw [hrun, he] at hw
    rcases clickPhase_cases env [AuthEvent.inspected .initial env.analysis1]
      with ⟨hc, -⟩ | ⟨hc, -⟩ | ⟨hc, -⟩ <;> rw [hc] at hw <;> simp at hw
  | inr evs =>
    rw [haf] at hrun
    dsimp only [] at hrun
    obtain ⟨hpw, hpn, hpf⟩ := inr_events_pre env haf
    by_cases hs : env.hasSession = false
    · rw [hrun] at hw
      simp [manualPhase, hs] at hw
      exact absurd hw hpw
    by_cases hd : env.openDebuggerOk = false
    · rw [hrun] at hw
      simp [manualPhase, hs, hd] at hw
      exact absurd hw hpw
    have hms := manualPhase_skip evs (by simpa using hs) (by simpa using hd)
      hskip hg
    rw [hrun, hms]
    refine ⟨rfl, by simp, fun a => ?_⟩
    simp only [List.mem_append]
    rintro (hin | hin)
    · exact hpf a hin
    · simp at hin

/-- C5: with the manual-login wait reached and a non-skip input, the
orchestrator runs the Inspector exactly once more, as the last event of
the run; a `requiresAuth = true` verdict raises the fatal error message
referencing authentication, a `false` verdict returns successfully. -/
theorem nonskip_reverification (env : AuthEnv)
    (hw : AuthEvent.waitedForInput ∈ (authenticateToWebsite env).events)
    (hskip : isSkipInput env.userInput = false) :
    (∃ evs, (authenticateToWebsite env).events
        = evs ++ [.openedDebugger, .waitedForInput,
            .inspected .final env.finalAnalysis]
      ∧ ∀ a, AuthEvent.inspected .final a ∉ evs)
    ∧ (env.finalAnalysis.requiresAuth = true →
        (authenticateToWebsite env).outcome = .error authStillRequiredMsg)
    ∧ (env.finalAnalysis.requiresAuth = false →
        (authenticateToWebsite env).outcome = .ok ())
    ∧ containsSub "authentication".toList (toLowerL authStillRequiredMsg)
        = true := by
  by_cases h1 : env.pageAvailable = false
  · simp [authenticateToWebsite, h1] at hw
  by_cases h2 : env.gotoInitialOk = false
  · simp [authenticateToWebsite, h1, h2] at hw
  by_cases h3 : env.analysis1.requiresAuth = false
  · simp [authenticateToWebsite, h1, h2, h3] at hw
  have hrun : authenticateToWebsite env
      = (match autofillPhase env
          (clickPhase env [AuthEvent.inspected .initial env.analysis1]).1
          (clickPhase env [AuthEvent.inspected .initial env.analysis1]).2 with
         | .inl run => run
         | .inr evs => manualPhase env evs) := by
    simp [authenticateToWebsite, h1, h2, h3]
  cases haf : autofillPhase env
      (clickPhase env [AuthEvent.inspected .initial env.analysis1]).1
      (clickPhase env [AuthEvent.inspected .initial env.analysis1]).2 with
  | inl run' =>
    exfalso
    rw [haf] at hrun
    dsimp only [] at hrun
    obtain ⟨-, he, -⟩ := autofillPhase_inl_cases haf
    rw [hrun, he] at hw
    rcases clickPhase_cases env [AuthEvent.inspected .initial env.analysis1]
      with ⟨hc, -⟩ | ⟨hc, -⟩ | ⟨hc, -⟩ <;> rw [hc] at hw <;> simp at hw
  | inr evs =>
    rw [haf] at hrun
    dsimp only [] at hrun
    obtain ⟨hpw, hpn, hpf⟩ := inr_events_pre env haf
    by_cases hs : env.hasSession = false
    · rw [hrun] at hw
      simp [manualPhase, hs] at hw
      exact absurd hw hpw
    by_cases hd : env.openDebuggerOk = false
    · rw [hrun] at hw
      simp [manualPhase, hs, hd] at hw
      exact absurd hw hpw
    have hmn := manualPhase_nonskip evs (by simpa using hs) (by simpa using hd)
      hskip
    rw [hrun, hmn]
    refine ⟨⟨evs, rfl, fun a => hpf a⟩, ?_, ?_, by decide⟩
    · intro hreq
      simp [hreq]
    · intro hreq
      simp [hreq]

/-- C6: `requiresAuth = false` on the most recent inspection is the sole
terminal success condition apart from the user-directed skip: a normal
return implies the user entered the skip token or the last
`AuthAnalysis` obtained reported `requiresAuth = false`. -/
theorem success_requires_auth_false (env : AuthEnv)
    (h : (authenticateToWebsite env).outcome = .ok ()) :
    isSkipInput env.userInput = true
    ∨ ∃ a, lastInspected (authenticateToWebsite env).events = some a
        ∧ a.requiresAuth = false := by
  by_cases h1 : env.pageAvailable = false
  · simp [authenticateToWebsite, h1] at h
  by_cases h2 : env.gotoInitialOk = false
  · simp [authenticateToWebsite, h1, h2] at h
  by_cases h3 : env.analysis1.requiresAuth = false
  · refine Or.inr ⟨env.analysis1, ?_, h3⟩
    have : (authenticateToWebsite env).events
        = [AuthEvent.inspected .initial env.analysis1] := by
      simp [authenticateToWebsite, h1, h2, h3]
    rw [this]
    simpa using lastInspected_snoc_inspect [] .initial env.analysis1
  have hrun : authenticateToWebsite env
      = (match autofillPhase env
          (clickPhase env [AuthEvent.inspected .initial env.analysis1]).1
          (clickPhase env [AuthEvent.inspected .initial env.analysis1]).2 with
         | .inl run => run
         | .inr evs => manualPhase env evs) := by
    simp [authenticateToWebsite, h1, h2, h3]
  cases haf : autofillPhase env
      (clickPhase env [AuthEvent.inspected .initial env.analysis1]).1
      (clickPhase env [AuthEvent.inspected .initial env.analysis1]).2 with
  | inl run' =>
    rw [haf] at hrun
    dsimp only [] at hrun
    obtain ⟨-, he, hreq⟩ := autofillPhase_inl_cases haf
    refine Or.inr ⟨env.analysisAfterAutofill, ?_, hreq⟩
    rw [hrun, he]
    rw [show (clickPhase env [AuthEvent.inspected .initial env.analysis1]).2
          ++ [AuthEvent.autofillAttempt true,
              AuthEvent.inspected .afterAutofill env.analysisAfterAutofill]
        = ((clickPhase env [AuthEvent.inspected .initial env.analysis1]).2
          ++ [AuthEvent.autofillAttempt true])
          ++ [AuthEvent.inspected .afterAutofill env.analysisAfterAutofill]
      by simp]
    exact lastInspected_snoc_inspect _ _ _
  | inr evs =>
    rw [haf] at hrun
    dsimp only [] at hrun
    rw [hrun] at h
    rcases manualPhase_ok h with ⟨hskip, -⟩ | ⟨-, hreq, he⟩
    · exact Or.inl hskip
    · refine Or.inr ⟨env.finalAnalysis, ?_, hreq⟩
      rw [hrun, he]
      rw [show evs ++ [AuthEvent.openedDebugger, AuthEvent.waitedForInput,
              AuthEvent.inspected .final env.finalAnalysis]
          = (evs ++ [AuthEvent.openedDebugger, AuthEvent.waitedForInput])
            ++ [AuthEvent.inspected .final env.finalAnalysis] by simp]
      exact lastInspected_snoc_inspect _ _ _

/-- C9: when the click of the detected login affordance throws, the
orchestrator does not abort and does not re-run the Inspector in that
branch: the failed click is recorded, no after-click inspection happens,
the run is independent of the after-click analysis oracle, and the
autofill stage is gated by the pre-click analysis (`canAutofill` of the
first inspection). -/
theorem click_failure_keeps_stale_analysis (env : AuthEnv) (b : List Char)
    (h1 : env.pageAvailable = true) (h2 : env.gotoInitialOk = true)
    (h3 : env.analysis1.requiresAuth = true)
    (hb : env.analysis1.loginButton = some b)
    (hact : env.clickActOk = false) :
    AuthEvent.clickedLogin false ∈ (authenticateToWebsite env).events
    ∧ (∀ a, AuthEvent.inspected .afterClick a
        ∉ (authenticateToWebsite env).events)
    ∧ (∀ x, authenticateToWebsite { env with analysisAfterClick := x }
        = authenticateToWebsite env)
    ∧ ((∃ ok, AuthEvent.autofillAttempt ok
          ∈ (authenticateToWebsite env).events)
        ↔ env.credentials.isSome = true
          ∧ env.analysis1.canAutofill = some true) := by
  have hclick : clickPhase env [AuthEvent.inspected .initial env.analysis1]
      = (env.analysis1, [AuthEvent.inspected .initial env.analysis1,
          .clickedLogin false]) := by
    simp [clickPhase, hb, hact]
  have hrun : authenticateToWebsite env
      = (match autofillPhase env env.analysis1
          [AuthEvent.inspected .initial env.analysis1,
            AuthEvent.clickedLogin false] with
         | .inl run => run
         | .inr evs => manualPhase env evs) := by
    simp [authenticateToWebsite, h1, h2, h3, hclick]
  refine ⟨?_, ?_, ?_, ?_⟩
  · -- the failed click is recorded
    rw [hrun]
    cases haf : autofillPhase env env.analysis1
        [AuthEvent.inspected .initial env.analysis1,
          AuthEvent.clickedLogin false] with
    | inl run' =>
      obtain ⟨-, he, -⟩ := autofillPhase_inl_cases haf
      rw [he]
      simp
    | inr evs =>
      rcases autofillPhase_inr_cases haf with h9 | h9 | h9 <;> subst h9 <;>
        rcases manualPhase_events_cases env _ with hm | hm | hm | hm <;>
        rw [hm] <;> simp
  · -- no after-click inspection anywhere in the run
    intro a
    rw [hrun]
    cases haf : autofillPhase env env.analysis1
        [AuthEvent.inspected .initial env.analysis1,
          AuthEvent.clickedLogin false] with
    | inl run' =>
      obtain ⟨-, he, -⟩ := autofillPhase_inl_cases haf
      rw [he]
      simp
    | inr evs =>
      rcases autofillPhase_inr_cases haf with h9 | h9 | h9 <;> subst h9 <;>
        rcases manualPhase_events_cases env _ with hm | hm | hm | hm <;>
        rw [hm] <;> simp
  · -- independence from the after-click analysis oracle
    intro x
    simp [authenticateToWebsite, clickPhase, autofillPhase, manualPhase,
      h1, h2, h3, hb, hact]
  · -- the autofill gate is the pre-click analysis
    by_cases hcond : env.credentials.isSome = true
        ∧ env.analysis1.canAutofill = some true
    · refine ⟨fun _ => hcond, fun _ => ?_⟩
      cases haf : autofillPhase env env.analysis1
          [AuthEvent.inspected .initial env.analysis1,
            AuthEvent.clickedLogin false] with
      | inl run' =>
        obtain ⟨ok, hok⟩ := (autofillPhase_attempt hcond).1 run' haf
        rw [hrun, haf]
        exact ⟨ok, hok⟩
      | inr evs =>
        obtain ⟨ok, hok⟩ := (autofillPhase_attempt hcond).2 evs haf
        rw [hrun, haf]
        rcases manualPhase_events_cases env evs with hm | hm | hm | hm <;>
          rw [hm] <;> exact ⟨ok, by simp [hok]⟩
    · constructor
      · rintro ⟨ok, hok⟩
        exfalso
        have hna := autofillPhase_no_attempt env env.analysis1
          [AuthEvent.inspected .initial env.analysis1,
            AuthEvent.clickedLogin false] hcond
        rw [hrun, hna] at hok
        rcases manualPhase_events_cases env _ with hm | hm | hm | hm <;>
          rw [hm] at hok <;> simp at hok
      · intro hc
        exact absurd hc hcond

/-! ### Schema rejection -/

/-- A failing element fails the whole traversal. -/
lemma mapOpt_eq_none_of_mem {f : α → Option β} {l : List α} {x : α}
    (hx : x ∈ l) (hfx : f x = none) : mapOpt f l = none := by
  induction l with
  | nil => cases hx
  | cons y ys ih =>
    rcases List.mem_cons.mp hx with h | h
    · subst h
      simp [mapOpt, hfx]
    · unfold mapOpt
      cases f y with
      | none => rfl
      | some z => simp [ih h]

/-- A parameter whose `type` is present but outside the enum fails
validation, whatever its other fields look like. -/
lemma parseActionParam_bad_type {pfs : List (List Char × Json)} {t : Json}
    (ht : jLookup pfs "type".toList = some t)
    (htbad : asParamType t = none) :
    parseActionParam (.obj pfs) = none := by
  cases hn : asStr (jLookup pfs "name".toList) with
  | none =>
    simp only [parseActionParam]
    rw [hn]
    rfl
  | some n =>
    simp only [parseActionParam]
    rw [hn, ht]
    simp [htbad]

/-- An action entry missing `name`, missing `steps`, or containing a
parameter with a `type` outside the enum fails validation. -/
lemma parseDiscoveredAction_bad {bfs : List (List Char × Json)}
    (h : jLookup bfs "name".toList = none
      ∨ jLookup bfs "steps".toList = none
      ∨ (∃ ps p pfs t, jLookup bfs "parameters".toList = some (.arr ps)
          ∧ p ∈ ps ∧ p = .obj pfs
          ∧ jLookup pfs "type".toList = some t
          ∧ asParamType t = none)) :
    parseDiscoveredAction (.obj bfs) = none := by
  rcases h with h | h | ⟨ps, p, pfs, t, hps, hp, hpobj, ht, htbad⟩
  · simp only [parseDiscoveredAction]
    rw [h]
    rfl
  · cases hn : asStr (jLookup bfs "name".toList) with
    | none =>
      simp only [parseDiscoveredAction]
      rw [hn]
      rfl
    | some n =>
      cases hd : asStr (jLookup bfs "description".toList) with
      | none =>
        simp only [parseDiscoveredAction]
        rw [hn, hd]
        rfl
      | some d =>
        have hst : parseSteps (jLookup bfs "steps".toList) = none := by
          rw [h]
          rfl
        simp only [parseDiscoveredAction]
        rw [hn, hd, hst]
        rfl
  · cases hn : asStr (jLookup bfs "name".toList) with
    | none =>
      simp only [parseDiscoveredAction]
      rw [hn]
      rfl
    | some n =>
      cases hd : asStr (jLookup bfs "description".toList) with
      | none =>
        simp only [parseDiscoveredAction]
        rw [hn, hd]
        rfl
      | some d =>
        cases hst : parseSteps (jLookup bfs "steps".toList) with
        | none =>
          simp only [parseDiscoveredAction]
          rw [hn, hd, hst]
          rfl
        | some st =>
          have hpa : parseActionParam p = none := by
            rw [hpobj]
            exact parseActionParam_bad_type ht htbad
          have hpp : parseParameters (jLookup bfs "parameters".toList)
              = none := by
            rw [hps]
            simp only [parseParameters]
            rw [mapOpt_eq_none_of_mem hp hpa]
            rfl
          simp only [parseDiscoveredAction]
          rw [hn, hd, hst, hpp]
          rfl

/-- C3: a parsed discovery response whose `actions` array contains an
entry missing `name` or `steps`, or a parameter with `type` outside
`string`/`number`/`boolean`, fails schema validation, and
`discoverActions` rejects the response with a propagated error instead of
returning any (partial) action list. -/
theorem schema_rejection (fs : List (List Char × Json))
    (items : List Json) (bfs : List (List Char × Json))
    (hactions : jLookup fs "actions".toList = some (.arr items))
    (hmem : Json.obj bfs ∈ items)
    (hbad : jLookup bfs "name".toList = none
      ∨ jLookup bfs "steps".toList = none
      ∨ (∃ ps p pfs t, jLookup bfs "parameters".toList = some (.arr ps)
          ∧ p ∈ ps ∧ p = .obj pfs
          ∧ jLookup pfs "type".toList = some t
          ∧ asParamType t = none)) :
    parseDiscoveredActionsResponse (.obj fs) = none
    ∧ ∀ (jsonParse : List Char → Option Json) (resp s : List Char),
        repairToJsonText resp = .ok s → jsonParse s = some (.obj fs) →
        ∀ acts, discoverActionsPipeline jsonParse resp ≠ .ok acts := by
  have hresp : parseDiscoveredActionsResponse (.obj fs) = none := by
    simp only [parseDiscoveredActionsResponse]
    rw [hactions]
    exact mapOpt_eq_none_of_mem hmem (parseDiscoveredAction_bad hbad)
  refine ⟨hresp, ?_⟩
  intro jsonParse resp s hrep hparse acts
  unfold discoverActionsPipeline
  rw [hrep]
  dsimp only []
  rw [hparse]
  dsimp only []
  rw [hresp]
  simp

/-! ### JSON repair -/

/-- The backtick character. -/
def backtick : Char := '\x60'

lemma dropWhile_head_false {p : Char → Bool} {a : Char} {l : List Char}
    (h : p a = false) : List.dropWhile p (a :: l) = a :: l := by
  simp [List.dropWhile_cons, h]

lemma dropWhile_append_all {p : Char → Bool} {l1 l2 : List Char}
    (h : ∀ x ∈ l1, p x = true) :
    List.dropWhile p (l1 ++ l2) = List.dropWhile p l2 := by
  induction l1 with
  | nil => rfl
  | cons a t ih =>
    simp only [List.cons_append, List.dropWhile_cons, h a (by simp)]
    exact ih (fun x hx => h x (by simp [hx]))

lemma trimL_eq_self {l : List Char}
    (h1 : ∀ c, l.head? = some c → isJsWS c = false)
    (h2 : ∀ c, l.getLast? = some c → isJsWS c = false) :
    trimL l = l := by
  unfold trimL
  have hd : l.dropWhile isJsWS = l := by
    cases l with
    | nil => rfl
    | cons a t => exact dropWhile_head_false (h1 a rfl)
  rw [hd]
  cases hl : l.reverse with
  | nil => simp_all
  | cons a t =>
    have ha : l.getLast? = some a := by
      rw [← List.head?_reverse, hl]
      rfl
    have hstep : List.dropWhile isJsWS (a :: t) = a :: t :=
      dropWhile_head_false (h2 a ha)
    rw [hstep, ← hl, List.reverse_reverse]

lemma isPrefixB_ticks_cons {c : Char} {t : List Char} (h : c ≠ backtick) :
    isPrefixB "```".toList (c :: t) = false := by
  show isPrefixB (backtick :: backtick :: backtick :: []) (c :: t) = false
  simp [isPrefixB, Ne.symm h]

lemma stripFences_eq_self {l : List Char}
    (h1 : ∀ c, l.head? = some c → c ≠ backtick)
    (h2 : ∀ c, l.getLast? = some c → c ≠ backtick) :
    stripFences l = l := by
  have hpre : isPrefixB "```".toList l = false := by
    cases l with
    | nil => rfl
    | cons a t => exact isPrefixB_ticks_cons (h1 a rfl)
  have hsuf : isSuffixB "```".toList l = false := by
    unfold isSuffixB
    cases hl : l.reverse with
    | nil =>
      rfl
    | cons a t =>
      have ha : l.getLast? = some a := by
        rw [← List.head?_reverse, hl]
        rfl
      show isPrefixB "```".toList.reverse (a :: t) = false
      exact isPrefixB_ticks_cons (h2 a ha)
  have e1 : stripFence1 l = l := by
    unfold stripFence1
    rw [if_neg]
    intro hc
    rw [hpre] at hc
    exact absurd hc.1 (by simp)
  have e2 : stripFence2 l = l := by
    unfold stripFence2
    rw [hpre]
    simp
  have e3 : stripFence3 l = l := by
    unfold stripFence3
    rw [hsuf]
    simp
  unfold stripFences
  rw [e1, e2, e3]

lemma extractBraced_braced (mid : List Char) :
    extractBraced (lbrace :: (mid ++ [rbrace]))
      = some (lbrace :: (mid ++ [rbrace])) := by
  have h1 : List.dropWhile (fun c => !(c = lbrace))
      (lbrace :: (mid ++ [rbrace])) = lbrace :: (mid ++ [rbrace]) :=
    dropWhile_head_false (by simp)
  have hrev : (mid ++ [rbrace]).reverse = rbrace :: mid.reverse := by
    simp
  have h2 : List.dropWhile (fun x => !(x = rbrace))
      (rbrace :: mid.reverse) = rbrace :: mid.reverse :=
    dropWhile_head_false (by simp)
  unfold extractBraced
  rw [h1]
  dsimp only []
  rw [hrev, h2, ← hrev, List.reverse_reverse]
  simp

lemma extractBraced_prefixed {p mid : List Char}
    (hnb : lbrace ∉ p) :
    extractBraced (p ++ (lbrace :: (mid ++ [rbrace])))
      = some (lbrace :: (mid ++ [rbrace])) := by
  have h0 : List.dropWhile (fun c => !(c = lbrace))
      (p ++ (lbrace :: (mid ++ [rbrace])))
      = List.dropWhile (fun c => !(c = lbrace))
          (lbrace :: (mid ++ [rbrace])) := by
    refine dropWhile_append_all ?_
    intro x hx
    have : x ≠ lbrace := fun hh => hnb (hh ▸ hx)
    simp [this]
  have h1 : List.dropWhile (fun c => !(c = lbrace))
      (lbrace :: (mid ++ [rbrace])) = lbrace :: (mid ++ [rbrace]) :=
    dropWhile_head_false (by simp)
  have hrev : (mid ++ [rbrace]).reverse = rbrace :: mid.reverse := by
    simp
  have h2 : List.dropWhile (fun x => !(x = rbrace))
      (rbrace :: mid.reverse) = rbrace :: mid.reverse :=
    dropWhile_head_false (by simp)
  unfold extractBraced
  rw [h0, h1]
  dsimp only []
  rw [hrev, h2, ← hrev, List.reverse_reverse]
  simp

lemma dropWhile_eq_nil_all {p : Char → Bool} {l : List Char}
    (h : ∀ x ∈ l, p x = true) : l.dropWhile p = [] := by
  induction l with
  | nil => rfl
  | cons a u ih =>
    rw [List.dropWhile_cons]
    simp only [h a (by simp), if_true]
    exact ih (fun x hx => h x (by simp [hx]))

lemma extractBraced_none {t : List Char} (h : lbrace ∉ t) :
    extractBraced t = none := by
  unfold extractBraced
  have : t.dropWhile (fun c => !(c = lbrace)) = [] := by
    refine dropWhile_eq_nil_all ?_
    intro x hx
    have : x ≠ lbrace := fun hh => h (hh ▸ hx)
    simp [this]
  rw [this]

lemma extractBraced_none_rb {t : List Char} (h : rbrace ∉ t) :
    extractBraced t = none := by
  cases hd : t.dropWhile (fun c => !(c = lbrace)) with
  | nil =>
    unfold extractBraced
    rw [hd]
  | cons c rest =>
    have hsub : List.Sublist rest t := by
      have h1 : List.Sublist (c :: rest) t := hd ▸ List.dropWhile_sublist _
      exact (List.sublist_cons_self c rest).trans h1
    have hall : ∀ x ∈ rest.reverse, (!(x = rbrace)) = true := by
      intro x hx
      have hxt : x ∈ t := hsub.mem (List.mem_reverse.mp hx)
      have : x ≠ rbrace := fun hh => h (hh ▸ hxt)
      simp [this]
    unfold extractBraced
    rw [hd]
    dsimp only []
    rw [dropWhile_eq_nil_all hall]
    simp

/-- The repair step on a bare JSON object text. -/
lemma repair_bare (mid : List Char) :
    repairToJsonText (lbrace :: (mid ++ [rbrace]))
      = .ok (lbrace :: (mid ++ [rbrace])) := by
  have hhead : (lbrace :: (mid ++ [rbrace])).head? = some lbrace := rfl
  have hlast : (lbrace :: (mid ++ [rbrace])).getLast? = some rbrace := by
    rw [show lbrace :: (mid ++ [rbrace]) = (lbrace :: mid) ++ [rbrace] from rfl]
    rw [List.getLast?_append_of_ne_nil (lbrace :: mid) (by simp)]
    rfl
  have htrim : trimL (lbrace :: (mid ++ [rbrace])) = lbrace :: (mid ++ [rbrace]) := by
    refine trimL_eq_self ?_ ?_
    · intro c hc
      rw [hhead] at hc
      cases hc
      decide
    · intro c hc
      rw [hlast] at hc
      cases hc
      decide
  have hstrip : stripFences (lbrace :: (mid ++ [rbrace]))
      = lbrace :: (mid ++ [rbrace]) := by
    refine stripFences_eq_self ?_ ?_
    · intro c hc
      rw [hhead] at hc
      cases hc
      decide
    · intro c hc
      rw [hlast] at hc
      cases hc
      decide
  simp only [repairToJsonText]
  rw [htrim, hstrip, htrim]
  simp [startsWithLBrace, lbrace]

lemma braced_getLast? (mid : List Char) :
    (lbrace :: (mid ++ [rbrace])).getLast? = some rbrace := by
  rw [show lbrace :: (mid ++ [rbrace]) = (lbrace :: mid) ++ [rbrace] from rfl]
  rw [List.getLast?_append_of_ne_nil (lbrace :: mid) (by simp)]
  rfl

lemma braced_trimL (mid : List Char) :
    trimL (lbrace :: (mid ++ [rbrace])) = lbrace :: (mid ++ [rbrace]) := by
  refine trimL_eq_self ?_ ?_
  · intro c hc
    cases hc
    decide
  · intro c hc
    rw [braced_getLast?] at hc
    cases hc
    decide

/-- Stripping the fences of the `json`-tagged markdown wrapping of a
brace-delimited object recovers exactly the object text. -/
lemma stripFences_fenced (mid : List Char) :
    stripFences ("```json\n".toList
        ++ ((lbrace :: (mid ++ [rbrace])) ++ "\n```".toList))
      = lbrace :: (mid ++ [rbrace]) := by
  have h1 : stripFence1 ("```json\n".toList
      ++ ((lbrace :: (mid ++ [rbrace])) ++ "\n```".toList))
      = (lbrace :: (mid ++ [rbrace])) ++ "\n```".toList := by
    unfold stripFence1
    rw [if_pos ⟨rfl, rfl⟩]
    show List.dropWhile isJsWS
      ('\n' :: ((lbrace :: (mid ++ [rbrace])) ++ "\n```".toList)) = _
    rw [List.dropWhile_cons]
    simp only [show isJsWS '\n' = true from rfl, if_true]
    show List.dropWhile isJsWS
      (lbrace :: ((mid ++ [rbrace]) ++ "\n```".toList)) = _
    rw [dropWhile_head_false (by decide)]
    simp
  have h2 : stripFence2 ((lbrace :: (mid ++ [rbrace])) ++ "\n```".toList)
      = (lbrace :: (mid ++ [rbrace])) ++ "\n```".toList := by
    unfold stripFence2
    rw [show (lbrace :: (mid ++ [rbrace])) ++ "\n```".toList
        = lbrace :: ((mid ++ [rbrace]) ++ "\n```".toList) from rfl]
    rw [isPrefixB_ticks_cons (by decide)]
    simp
  have hrev : ((lbrace :: (mid ++ [rbrace])) ++ "\n```".toList).reverse
      = backtick :: backtick :: backtick :: '\n'
          :: (lbrace :: (mid ++ [rbrace])).reverse := by
    rw [List.reverse_append]
    rfl
  have hsrev : (lbrace :: (mid ++ [rbrace])).reverse
      = rbrace :: (mid.reverse ++ [lbrace]) := by
    simp
  have h3 : stripFence3 ((lbrace :: (mid ++ [rbrace])) ++ "\n```".toList)
      = lbrace :: (mid ++ [rbrace]) := by
    unfold stripFence3
    have hcond : isSuffixB "```".toList
        ((lbrace :: (mid ++ [rbrace])) ++ "\n```".toList) = true := by
      unfold isSuffixB
      rw [hrev]
      rfl
    rw [hcond]
    simp only [if_true]
    rw [hrev]
    show (List.dropWhile isJsWS
      ('\n' :: (lbrace :: (mid ++ [rbrace])).reverse)).reverse = _
    rw [List.dropWhile_cons]
    simp only [show isJsWS '\n' = true from rfl, if_true]
    rw [hsrev, dropWhile_head_false (by decide), ← hsrev,
      List.reverse_reverse]
  unfold stripFences
  rw [h1, h2, h3]

/-- The repair step on the same object wrapped in json code fences. -/
lemma repair_fenced (mid : List Char) :
    repairToJsonText ("```json\n".toList
        ++ ((lbrace :: (mid ++ [rbrace])) ++ "\n```".toList))
      = .ok (lbrace :: (mid ++ [rbrace])) := by
  have htrim0 : trimL ("```json\n".toList
      ++ ((lbrace :: (mid ++ [rbrace])) ++ "\n```".toList))
      = "```json\n".toList
        ++ ((lbrace :: (mid ++ [rbrace])) ++ "\n```".toList) := by
    refine trimL_eq_self ?_ ?_
    · intro c hc
      cases hc
      decide
    · intro c hc
      rw [List.getLast?_append_of_ne_nil _ (by simp),
        List.getLast?_append_of_ne_nil _ (by simp)] at hc
      have : c = backtick := by
        cases hc
        rfl
      subst this
      decide
  simp only [repairToJsonText]
  rw [htrim0, stripFences_fenced, braced_trimL]
  simp [startsWithLBrace, lbrace]

/-- The repair step on the same object preceded by explanatory prose
that contains no brace and does not look like whitespace or a fence at
its start. -/
lemma repair_prefixed (c : Char) (pt mid : List Char)
    (hws : isJsWS c = false) (htick : c ≠ backtick)
    (hnl : lbrace ∉ c :: pt) :
    repairToJsonText ((c :: pt) ++ (lbrace :: (mid ++ [rbrace])))
      = .ok (lbrace :: (mid ++ [rbrace])) := by
  have hlast : ((c :: pt) ++ (lbrace :: (mid ++ [rbrace]))).getLast?
      = some rbrace := by
    rw [List.getLast?_append_of_ne_nil _ (by simp), braced_getLast?]
  have htrim : trimL ((c :: pt) ++ (lbrace :: (mid ++ [rbrace])))
      = (c :: pt) ++ (lbrace :: (mid ++ [rbrace])) := by
    refine trimL_eq_self ?_ ?_
    · intro x hx
      cases hx
      exact hws
    · intro x hx
      rw [hlast] at hx
      cases hx
      decide
  have hstrip : stripFences ((c :: pt) ++ (lbrace :: (mid ++ [rbrace])))
      = (c :: pt) ++ (lbrace :: (mid ++ [rbrace])) := by
    refine stripFences_eq_self ?_ ?_
    · intro x hx
      cases hx
      exact htick
    · intro x hx
      rw [hlast] at hx
      cases hx
      decide
  have hcl : c ≠ lbrace := fun hh => hnl (by simp [hh])
  have hsw : startsWithLBrace ((c :: pt) ++ (lbrace :: (mid ++ [rbrace])))
      = false := by
    simp [startsWithLBrace, hcl]
  simp only [repairToJsonText]
  rw [htrim, hstrip, htrim, hsw]
  simp only [Bool.false_eq_true, if_false]
  rw [extractBraced_prefixed hnl]

/-- The repair step fails, with the diagnostic-prefix error, on text
containing no brace pair: no open brace at all, or no close brace while
not starting with an open brace. -/
lemma repair_braceless {t : List Char}
    (htrim : trimL t = t) (htick : backtick ∉ t)
    (hnp : lbrace ∉ t ∨ (startsWithLBrace t = false ∧ rbrace ∉ t)) :
    repairToJsonText t = .error (nonJsonMsg t) := by
  have hstrip : stripFences t = t := by
    refine stripFences_eq_self ?_ ?_
    · intro x hx
      intro hh
      subst hh
      exact htick (by cases t with
        | nil => cases hx
        | cons a u =>
          cases hx
          simp)
    · intro x hx
      intro hh
      subst hh
      obtain ⟨hne, heq⟩ :=
        List.mem_getLast?_eq_getLast (show backtick ∈ t.getLast? from hx)
      exact htick (heq ▸ List.getLast_mem hne)
  have hsw : startsWithLBrace t = false := by
    rcases hnp with hnl | hr
    · cases t with
      | nil => rfl
      | cons a u =>
        have : a ≠ lbrace := fun hh => hnl (by simp [hh])
        simp [startsWithLBrace, this]
    · exact hr.1
  have hext : extractBraced t = none := by
    rcases hnp with hnl | hr
    · exact extractBraced_none hnl
    · exact extractBraced_none_rb hr.2
  simp only [repairToJsonText]
  rw [htrim, hstrip, htrim, hsw]
  simp only [Bool.false_eq_true, if_false]
  rw [hext]

/-- C1: the repair step maps a bare brace-delimited JSON object text, the
same text wrapped in json code fences, and the same text preceded by
brace-free explanatory prose, to the identical repaired string (so the
subsequent parse yields the identical parsed object, as the pipeline
equalities state); and on text with no brace pair it fails, both at the
repair step and as the propagated `discoverActions` error, carrying the
first 100 characters of the unparseable text. -/
theorem json_repair_robustness (mid : List Char) (c : Char) (pt : List Char)
    (hws : isJsWS c = false) (htick : c ≠ backtick)
    (hnl : lbrace ∉ c :: pt) :
    repairToJsonText (lbrace :: (mid ++ [rbrace]))
      = .ok (lbrace :: (mid ++ [rbrace]))
    ∧ repairToJsonText ("```json\n".toList
        ++ ((lbrace :: (mid ++ [rbrace])) ++ "\n```".toList))
      = .ok (lbrace :: (mid ++ [rbrace]))
    ∧ repairToJsonText ((c :: pt) ++ (lbrace :: (mid ++ [rbrace])))
      = .ok (lbrace :: (mid ++ [rbrace]))
    ∧ (∀ jsonParse : List Char → Option Json,
        discoverActionsPipeline jsonParse ("```json\n".toList
            ++ ((lbrace :: (mid ++ [rbrace])) ++ "\n```".toList))
          = discoverActionsPipeline jsonParse (lbrace :: (mid ++ [rbrace]))
        ∧ discoverActionsPipeline jsonParse
            ((c :: pt) ++ (lbrace :: (mid ++ [rbrace])))
          = discoverActionsPipeline jsonParse (lbrace :: (mid ++ [rbrace])))
    ∧ ∀ t : List Char, trimL t = t → backtick ∉ t →
        (lbrace ∉ t ∨ (startsWithLBrace t = false ∧ rbrace ∉ t)) →
        repairToJsonText t = .error (nonJsonMsg t)
        ∧ t.take 100 <:+: nonJsonMsg t
        ∧ ∀ jsonParse : List Char → Option Json,
            discoverActionsPipeline jsonParse t
              = .error (failedMsg (nonJsonMsg t))
            ∧ t.take 100 <:+: failedMsg (nonJsonMsg t) := by
  refine ⟨repair_bare mid, repair_fenced mid,
    repair_prefixed c pt mid hws htick hnl, ?_, ?_⟩
  · intro jsonParse
    constructor
    · unfold discoverActionsPipeline
      rw [repair_fenced mid, repair_bare mid]
    · unfold discoverActionsPipeline
      rw [repair_prefixed c pt mid hws htick hnl, repair_bare mid]
  · intro t htrim htick' hnp
    have herr := repair_braceless htrim htick' hnp
    refine ⟨herr, ?_, ?_⟩
    · exact ⟨"Agent returned non-JSON response. Response started with: \"".toList,
        "...\"".toList, rfl⟩
    · intro jsonParse
      constructor
      · unfold discoverActionsPipeline
        rw [herr]
      · exact ⟨"Failed to discover actions: ".toList
          ++ "Agent returned non-JSON response. Response started with: \"".toList,
          "...\"".toList, by simp [failedMsg, nonJsonMsg]⟩

/-! ### Concrete environments for witnesses -/

/-- An orchestrator environment that reaches the manual wait and
receives a decorated skip token. -/
def envSkip : AuthEnv where
  pageAvailable := true
  gotoInitialOk := true
  analysis1 := { requiresAuth := true }
  credentials := none
  clickActOk := true
  analysisAfterClick := { requiresAuth := true }
  autofillActsOk := true
  analysisAfterAutofill := { requiresAuth := true }
  hasSession := true
  openDebuggerOk := true
  userInput := "  SKIP\n".toList
  gotoBackOk := true
  finalAnalysis := { requiresAuth := true }

/-- An orchestrator environment that reaches the manual wait, receives a
non-skip input, and passes final re-verification. -/
def envDone : AuthEnv where
  pageAvailable := true
  gotoInitialOk := true
  analysis1 := { requiresAuth := true }
  credentials := none
  clickActOk := true
  analysisAfterClick := { requiresAuth := true }
  autofillActsOk := true
  analysisAfterAutofill := { requiresAuth := true }
  hasSession := true
  openDebuggerOk := true
  userInput := "done\n".toList
  gotoBackOk := true
  finalAnalysis := { requiresAuth := false }

/-- An orchestrator environment whose login-button click throws. -/
def envClickFail : AuthEnv where
  pageAvailable := true
  gotoInitialOk := true
  analysis1 := {
    requiresAuth := true
    loginButton := some "Click the Sign In button".toList
    canAutofill := some true }
  credentials := some ⟨"user".toList, "pass".toList⟩
  clickActOk := false
  analysisAfterClick := { requiresAuth := false }
  autofillActsOk := true
  analysisAfterAutofill := { requiresAuth := true }
  hasSession := true
  openDebuggerOk := true
  userInput := "done\n".toList
  gotoBackOk := true
  finalAnalysis := { requiresAuth := false }

/-- A vault backend whose client connection fails. -/
def envVaultDown : OPBackend where
  clientOk := false
  vaultsList := .ok ["v1".toList]
  itemsList := .ok []
  itemGet := fun _ => .error ()
  resolveAllOk := true
  resolveSecret := fun _ => none

/-- A healthy vault backend (used for the partial-item witness). -/
def envVaultUp : OPBackend where
  clientOk := true
  vaultsList := .ok ["v1".toList]
  itemsList := .ok []
  itemGet := fun _ => .error ()
  resolveAllOk := true
  resolveSecret := fun _ => none

/-- A fetched item carrying both credential fields directly. -/
def fullItemBoth : OPFullItem where
  id := "i1".toList
  title := "Linear".toList
  fields := some
    [{ id := "username".toList, title := none, value := some "user".toList },
     { id := "password".toList, title := none, value := some "pass".toList }]

/-! ### Witnesses -/

/-- Witness for C1 at a concrete object and prose prefix. -/
theorem json_repair_robustness_witness :
    repairToJsonText (lbrace :: ("\x22a\x22:1".toList ++ [rbrace]))
      = .ok (lbrace :: ("\x22a\x22:1".toList ++ [rbrace])) :=
  (json_repair_robustness "\x22a\x22:1".toList 'H'
    "ere is the result: ".toList (by decide) (by decide) (by decide)).1

/-- Witness for C3 at a concrete response whose only action entry is an
empty object (so `name` is missing). -/
theorem schema_rejection_witness :
    parseDiscoveredActionsResponse
      (.obj [("actions".toList, Json.arr [Json.obj []])]) = none :=
  (schema_rejection [("actions".toList, Json.arr [Json.obj []])]
    [Json.obj []] [] (by rfl) (by simp) (Or.inl rfl)).1

/-- Witness for C4 on `envSkip`. -/
theorem skip_short_circuit_witness :
    (authenticateToWebsite envSkip).outcome = .ok () :=
  (skip_short_circuit envSkip (by decide) (by decide) (by rfl)).1

/-- Witness for C5 on `envDone`. -/
theorem nonskip_reverification_witness :
    (authenticateToWebsite envDone).outcome = .ok () :=
  (nonskip_reverification envDone (by decide) (by decide)).2.2.1 (by rfl)

/-- Witness for C6 on `envSkip`. -/
theorem success_requires_auth_false_witness :
    isSkipInput envSkip.userInput = true
    ∨ ∃ a, lastInspected (authenticateToWebsite envSkip).events = some a
        ∧ a.requiresAuth = false :=
  success_requires_auth_false envSkip (by rfl)

/-- Witness for C8 on the failing backend. -/
theorem lookup_catches_backend_errors_witness :
    lookupCredentialsIn1Password envVaultDown "linear.app".toList = none :=
  (lookup_catches_backend_errors envVaultDown "linear.app".toList).1 (by rfl)

/-- Witness for C9 on `envClickFail`. -/
theorem click_failure_keeps_stale_analysis_witness :
    AuthEvent.clickedLogin false
      ∈ (authenticateToWebsite envClickFail).events :=
  (click_failure_keeps_stale_analysis envClickFail
    "Click the Sign In button".toList (by rfl) (by rfl) (by rfl) (by rfl) (by rfl)).1

/-- Witness for C10: the item carrying both fields processes to a
credentials value, whose fields are then both non-empty. -/
theorem lookup_requires_both_fields_witness :
    "user".toList ≠ [] ∧ "pass".toList ≠ [] :=
  (lookup_requires_both_fields envVaultUp "linear.app".toList).2.1
    "v1".toList fullItemBoth ⟨"user".toList, "pass".toList⟩ (by rfl)

end Mcpkit
